import Mathlib

/-!
Verification of the hnkeep fetch-cache-reconcile pipeline.

This file shallowly embeds the core logic of the hnkeep repository:

* `internal/syncer/syncer.go` — `mergeNotes`, the per-bookmark reconciliation
  `syncTask`, and the result-draining loop of `Sync`;
* `internal/hackernews` (cache file) — `writeCache`, `readCache` and the
  cache-consultation step of `CachedClient.GetItem`;
* the retry loops of the Hacker News read client (`Client.GetItem`) and the
  Karakeep write client (`Client.doRequestWithRetries`).

Strings are modelled as `List Char`; Go's `strings.TrimSpace` and
`strings.Contains` are reproduced over that model, with `unicode.IsSpace`
rendered as the Unicode White_Space code points that Go uses.
`time.Duration` values are modelled as `Int` nanoseconds with explicit
64-bit two's-complement wrap-around where Go's arithmetic can overflow.
-/

/-! ## Go string model -/

/-- Go's `unicode.IsSpace`: membership in the Unicode White_Space property
(U+0009–U+000D, U+0020, U+0085, U+00A0, U+1680, U+2000–U+200A, U+2028,
U+2029, U+202F, U+205F, U+3000). -/
def goIsSpace (c : Char) : Bool :=
  (9 ≤ c.toNat && c.toNat ≤ 13) || c.toNat = 32 || c.toNat = 133 || c.toNat = 160 ||
    c.toNat = 5760 || (8192 ≤ c.toNat && c.toNat ≤ 8202) || c.toNat = 8232 ||
    c.toNat = 8233 || c.toNat = 8239 || c.toNat = 8287 || c.toNat = 12288

/-- Go's `strings.TrimSpace`: drop leading and trailing White_Space. -/
def trimSpace (s : List Char) : List Char :=
  ((s.dropWhile goIsSpace).reverse.dropWhile goIsSpace).reverse

/-- `listStartsWith s sub` holds when `sub` is a leading segment of `s`
(Go's `strings.HasPrefix`). -/
def listStartsWith : List Char → List Char → Bool
  | _, [] => true
  | [], _ :: _ => false
  | c :: s, d :: sub => c == d && listStartsWith s sub

/-- Go's `strings.Contains s sub`: some contiguous segment of `s` equals `sub`. -/
def goContains : List Char → List Char → Bool
  | [], sub => sub.isEmpty
  | c :: t, sub => listStartsWith (c :: t) sub || goContains t sub

/-! ## `mergeNotes` (internal/syncer/syncer.go) -/

/-- `noteSeparator` from syncer.go: `"\n\n---\n\n"`. -/
def noteSeparator : List Char := "\n\n---\n\n".toList

/-- Embedding of `mergeNotes(existing, incoming *string) (*string, bool)`
from internal/syncer/syncer.go. Go `nil` string pointers become `none`. -/
def mergeNotes (existing incoming : Option (List Char)) : Option (List Char) × Bool :=
  let existingNote := existing.getD []
  match incoming with
  | none => (existing, false)
  | some inc =>
    if inc = [] then (existing, false)
    else if goContains existingNote inc then (existing, false)
    else if existingNote = [] then
      let result := trimSpace inc
      if result = [] then (none, false)
      else (some result, true)
    else (some (trimSpace (existingNote ++ noteSeparator ++ inc)), true)

/-- The spec's reference note-merge definition, stated exactly as the spec's
ordered rule list reads: no change when `I` is absent or empty; no change
when `E` contains `I`; `trim I` with an update when `E` is empty; otherwise
`trim (E ++ separator ++ I)` with an update. -/
def specMergeNotes (existing incoming : Option (List Char)) : Option (List Char) × Bool :=
  let e := existing.getD []
  match incoming with
  | none => (existing, false)
  | some i =>
    if i = [] then (existing, false)
    else if goContains e i then (existing, false)
    else if e = [] then (some (trimSpace i), true)
    else (some (trimSpace (e ++ noteSeparator ++ i)), true)

/-- The spec's note-merge rule amended with the guard the code actually has:
when `E` is empty and `trim I` is empty as well, the merge reports no change
(and a `nil` note) instead of proposing the empty note. -/
def specMergeNotesAmended (existing incoming : Option (List Char)) : Option (List Char) × Bool :=
  let e := existing.getD []
  match incoming with
  | none => (existing, false)
  | some i =>
    if i = [] then (existing, false)
    else if goContains e i then (existing, false)
    else if e = [] then
      if trimSpace i = [] then (none, false) else (some (trimSpace i), true)
    else (some (trimSpace (e ++ noteSeparator ++ i)), true)

/-! ## Helper lemmas about the string model -/

theorem listStartsWith_refl (s : List Char) : listStartsWith s s = true := by
  induction s with
  | nil => rfl
  | cons c t ih => simp [listStartsWith, ih]

theorem goContains_self (s : List Char) : goContains s s = true := by
  cases s with
  | nil => rfl
  | cons c t => simp [goContains, listStartsWith_refl]

theorem goContains_append_right (u sub : List Char) : goContains (u ++ sub) sub = true := by
  induction u with
  | nil => simpa using goContains_self sub
  | cons c t ih => simp [goContains, ih]

theorem dropWhile_head_false {α : Type} {p : α → Bool} {l : List α} {c : α} {t : List α}
    (h : l.dropWhile p = c :: t) : p c = false := by
  induction l with
  | nil => simp [List.dropWhile] at h
  | cons a l ih =>
    rw [List.dropWhile_cons] at h
    by_cases hp : p a
    · rw [if_pos hp] at h; exact ih h
    · rw [if_neg hp] at h
      cases h
      simpa using hp

theorem lastNonSpace_of_trimmed {s : List Char} (h : trimSpace s = s) (hne : s ≠ []) :
    ∃ c t, s.reverse = c :: t ∧ goIsSpace c = false := by
  have h1 : (s.dropWhile goIsSpace).reverse.dropWhile goIsSpace = s.reverse := by
    have h2 := congrArg List.reverse h
    simpa [trimSpace] using h2
  have h2 : s.reverse ≠ [] := by simpa using hne
  cases hr : s.reverse with
  | nil => exact absurd hr h2
  | cons c t =>
    refine ⟨c, t, rfl, ?_⟩
    rw [hr] at h1
    exact dropWhile_head_false h1

theorem trimSpace_append_right {A inc : List Char} {c : Char} {t : List Char}
    (hA : A.dropWhile goIsSpace ≠ [])
    (hinc : inc.reverse = c :: t) (hc : goIsSpace c = false) :
    trimSpace (A ++ inc) = A.dropWhile goIsSpace ++ inc := by
  unfold trimSpace
  rw [List.dropWhile_append]
  have hAe : (A.dropWhile goIsSpace).isEmpty = false := by
    cases hA' : A.dropWhile goIsSpace with
    | nil => exact absurd hA' hA
    | cons _ _ => rfl
  simp only [hAe, Bool.false_eq_true, if_false]
  rw [List.reverse_append, hinc, List.cons_append,
    List.dropWhile_cons_of_neg (by simp [hc]), ← List.cons_append, ← hinc,
    List.reverse_append, List.reverse_reverse, List.reverse_reverse]

/-! ## Branch equations for `mergeNotes` -/

theorem mergeNotes_contains_eq {e : Option (List Char)} {inc : List Char}
    (h1 : inc ≠ []) (h2 : goContains (e.getD []) inc = true) :
    mergeNotes e (some inc) = (e, false) := by
  unfold mergeNotes
  simp [h1, h2]

theorem mergeNotes_emptyE_eq {e : Option (List Char)} {inc : List Char}
    (h1 : inc ≠ []) (h2 : goContains (e.getD []) inc = false)
    (h3 : e.getD [] = []) (h4 : trimSpace inc ≠ []) :
    mergeNotes e (some inc) = (some (trimSpace inc), true) := by
  unfold mergeNotes
  rw [h3] at h2
  simp [h1, h2, h3, h4]

theorem mergeNotes_appendE_eq {e : Option (List Char)} {inc : List Char}
    (h1 : inc ≠ []) (h2 : goContains (e.getD []) inc = false)
    (h3 : e.getD [] ≠ []) :
    mergeNotes e (some inc) =
      (some (trimSpace (e.getD [] ++ noteSeparator ++ inc)), true) := by
  unfold mergeNotes
  simp [h1, h2, h3]

/-! ## Claims C1 and C2: the note-merge rule -/

/-- C1 counterexample: with an absent existing note and the incoming note
`" "` (one space, non-empty), the spec's reference rule demands result
`trim " " = ""` with an update, but `mergeNotes` reports no change. -/
theorem mergeNotes_spec_counterexample :
    mergeNotes none (some " ".toList) ≠ specMergeNotes none (some " ".toList) := by
  decide

/-- C1 (amended): `mergeNotes` agrees everywhere with the spec's note-merge
rule once the empty-existing case is amended with the guard the code has:
if `E` is empty and `trim I` is empty, no change is reported (and the note
stays `nil`) instead of an update to the empty note. -/
theorem mergeNotes_matches_spec_amended :
    ∀ existing incoming, mergeNotes existing incoming = specMergeNotesAmended existing incoming := by
  intro e i
  cases i <;> rfl

/-- C2 counterexample: for `E` absent and `I = " x "`, the first merge yields
`"x"`, and merging `" x "` into `"x"` appends again (since `"x"` does not
contain `" x "`), so applying the merge twice differs from applying it once. -/
theorem mergeNotes_idempotence_counterexample :
    (mergeNotes (mergeNotes none (some " x ".toList)).1 (some " x ".toList)).1 ≠
      (mergeNotes none (some " x ".toList)).1 := by
  decide

/-- C2 (amended): note-merge idempotence holds for every existing note `E`
whenever the incoming note `I` is absent or equal to its own trim (no
leading or trailing whitespace), including empty strings: a second merge
with the same `I` leaves the merged note unchanged and reports no update. -/
theorem mergeNotes_idempotent_trimmed (existing incoming : Option (List Char))
    (h : trimSpace (incoming.getD []) = incoming.getD []) :
    (mergeNotes (mergeNotes existing incoming).1 incoming).1 = (mergeNotes existing incoming).1 ∧
    (mergeNotes (mergeNotes existing incoming).1 incoming).2 = false := by
  cases incoming with
  | none => exact ⟨rfl, rfl⟩
  | some inc =>
    simp only [Option.getD_some] at h
    by_cases hinc : inc = []
    · subst hinc
      exact ⟨rfl, rfl⟩
    · by_cases hcont : goContains (existing.getD []) inc = true
      · have hF := mergeNotes_contains_eq hinc hcont
        rw [hF]
        show (mergeNotes existing (some inc)).1 = existing ∧
          (mergeNotes existing (some inc)).2 = false
        rw [hF]
        exact ⟨rfl, rfl⟩
      · rw [Bool.not_eq_true] at hcont
        by_cases hE : existing.getD [] = []
        · have h4 : trimSpace inc ≠ [] := by rw [h]; exact hinc
          have hF := mergeNotes_emptyE_eq hinc hcont hE h4
          rw [h] at hF
          rw [hF]
          show (mergeNotes (some inc) (some inc)).1 = some inc ∧
            (mergeNotes (some inc) (some inc)).2 = false
          have hS := mergeNotes_contains_eq (e := some inc) hinc
            (by simpa using goContains_self inc)
          rw [hS]
          exact ⟨rfl, rfl⟩
        · have hF := mergeNotes_appendE_eq hinc hcont hE
          have hdash : ('-' : Char) ∈ existing.getD [] ++ noteSeparator :=
            List.mem_append_right _ (by decide)
          have hA : (existing.getD [] ++ noteSeparator).dropWhile goIsSpace ≠ [] := by
            intro hnil
            have hall := List.dropWhile_eq_nil_iff.mp hnil
            exact absurd (hall _ hdash) (by decide)
          obtain ⟨c, t, hrev, hcns⟩ := lastNonSpace_of_trimmed h hinc
          have htrim := trimSpace_append_right hA hrev hcns
          rw [htrim] at hF
          rw [hF]
          show (mergeNotes (some ((existing.getD [] ++ noteSeparator).dropWhile goIsSpace ++ inc)) (some inc)).1 =
              some ((existing.getD [] ++ noteSeparator).dropWhile goIsSpace ++ inc) ∧
            (mergeNotes (some ((existing.getD [] ++ noteSeparator).dropWhile goIsSpace ++ inc)) (some inc)).2 = false
          have hS := mergeNotes_contains_eq
            (e := some ((existing.getD [] ++ noteSeparator).dropWhile goIsSpace ++ inc)) hinc
            (by simpa using goContains_append_right ((existing.getD [] ++ noteSeparator).dropWhile goIsSpace) inc)
          rw [hS]
          exact ⟨rfl, rfl⟩

/-- C2 witness: the amended idempotence theorem applied at the concrete
notes `E = "foo"`, `I = "bar"`. -/
theorem mergeNotes_idempotent_trimmed_witness :
    (mergeNotes (mergeNotes (some "foo".toList) (some "bar".toList)).1 (some "bar".toList)).1 =
      (mergeNotes (some "foo".toList) (some "bar".toList)).1 ∧
    (mergeNotes (mergeNotes (some "foo".toList) (some "bar".toList)).1 (some "bar".toList)).2 = false :=
  mergeNotes_idempotent_trimmed (some "foo".toList) (some "bar".toList) (by decide)

/-! ## `syncTask` (internal/syncer/syncer.go) -/

/-- Sync outcome classification, `SyncStatus` from syncer.go
(`SyncFailed`, `SyncCreated`, `SyncUpdated`, `SyncSkipped`). -/
inductive SyncStatus where
  | failed
  | created
  | updated
  | skipped
deriving DecidableEq, Repr

/-- A converted bookmark (`converter.Bookmark`) as consumed by `syncTask`:
URL, Unix `createdAt`, title, optional note and tags. -/
structure ConvBookmark where
  url : List Char
  createdAt : Int
  title : Option (List Char)
  note : Option (List Char)
  tags : List (List Char)
deriving DecidableEq, Repr

/-- The remote bookmark returned by `CreateBookmark`
(`karakeep.CreateBookmarkResponse`): ID, ISO8601 `createdAt`, optional note. -/
structure KkBookmark where
  id : List Char
  createdAt : List Char
  note : Option (List Char)
deriving DecidableEq, Repr

/-- Arguments of one `UpdateBookmark` call issued by `syncTask`:
bookmark ID, optional new `createdAt`, optional new note. -/
structure UpdateCall where
  id : List Char
  createdAt : Option (List Char)
  note : Option (List Char)
deriving DecidableEq, Repr

/-- Environment of one `syncTask` invocation: the responses of the Karakeep
client calls it makes, and the two time conversions (`time.Parse` /
`time.Format` are external library calls, abstracted as functions). -/
structure SyncEnv where
  createBookmark : Except (List Char) (KkBookmark × Bool)
  attachTags : Except (List Char) Unit
  updateBookmark : Except (List Char) Unit
  iso8601ToUnix : List Char → Except (List Char) Int
  unixToISO8601 : Int → List Char

/-- Embedding of `Syncer.syncTask` from internal/syncer/syncer.go: create or
get the bookmark, attach tags when present, and for an already-existing
bookmark decide between skip and update from the two independent flags
`timestampChanged` ("earliest wins") and `noteChanged` (`mergeNotes`).
Besides the status it returns the list of `UpdateBookmark` calls issued. -/
def syncTask (env : SyncEnv) (bm : ConvBookmark) : SyncStatus × List UpdateCall :=
  match env.createBookmark with
  | .error _ => (.failed, [])
  | .ok (karakeepBM, alreadyExists) =>
    match (if bm.tags.length > 0 then env.attachTags else .ok ()) with
    | .error _ => (.failed, [])
    | .ok _ =>
      if !alreadyExists then (.created, [])
      else
        match env.iso8601ToUnix karakeepBM.createdAt with
        | .error _ => (.failed, [])
        | .ok karakeepCreatedAtUnix =>
          let tsPair : Option (List Char) × Bool :=
            if bm.createdAt < karakeepCreatedAtUnix then
              (some (env.unixToISO8601 bm.createdAt), true)
            else (none, false)
          let notePair := mergeNotes karakeepBM.note bm.note
          if !tsPair.2 && !notePair.2 then (.skipped, [])
          else
            match env.updateBookmark with
            | .error _ => (.failed, [⟨karakeepBM.id, tsPair.1, notePair.1⟩])
            | .ok _ => (.updated, [⟨karakeepBM.id, tsPair.1, notePair.1⟩])

/-- The `createdAt` value proposed by the single update call of a `syncTask`
result, if any. -/
def proposedCreatedAt (r : SyncStatus × List UpdateCall) : Option (List Char) :=
  match r.2 with
  | [c] => c.createdAt
  | _ => none

/-! ## Claims C4 and C5: reconciliation of an already-existing bookmark -/

/-- C4: for an already-existing remote bookmark whose `createdAt` parses to
`R`, `syncTask` proposes updating the timestamp to the local `createdAt`
exactly when it is strictly earlier than `R`, proposes no timestamp change
otherwise, and the post-reconciliation timestamp equals `min R L`. -/
theorem syncTask_earliest_wins (env : SyncEnv) (bm : ConvBookmark) (kbm : KkBookmark) (R : Int)
    (hcreate : env.createBookmark = .ok (kbm, true))
    (hattach : env.attachTags = .ok ())
    (hparse : env.iso8601ToUnix kbm.createdAt = .ok R) :
    (proposedCreatedAt (syncTask env bm) = some (env.unixToISO8601 bm.createdAt) ↔ bm.createdAt < R) ∧
    (proposedCreatedAt (syncTask env bm) = none ↔ ¬ bm.createdAt < R) ∧
    (if (proposedCreatedAt (syncTask env bm)).isSome then bm.createdAt else R) = min R bm.createdAt := by
  have hatt : (if bm.tags.length > 0 then env.attachTags else Except.ok ()) = Except.ok () := by
    rw [hattach, ite_self]
  by_cases hts : bm.createdAt < R
  · by_cases hnote : (mergeNotes kbm.note bm.note).2 = true
    · cases hupd : env.updateBookmark with
      | error e =>
        simp [syncTask, hcreate, hatt, hparse, hts, hnote, hupd, proposedCreatedAt]
        omega
      | ok u =>
        simp [syncTask, hcreate, hatt, hparse, hts, hnote, hupd, proposedCreatedAt]
        omega
    · cases hupd : env.updateBookmark with
      | error e =>
        simp [syncTask, hcreate, hatt, hparse, hts, hnote, hupd, proposedCreatedAt]
        omega
      | ok u =>
        simp [syncTask, hcreate, hatt, hparse, hts, hnote, hupd, proposedCreatedAt]
        omega
  · by_cases hnote : (mergeNotes kbm.note bm.note).2 = true
    · cases hupd : env.updateBookmark with
      | error e =>
        simp [syncTask, hcreate, hatt, hparse, hts, hnote, hupd, proposedCreatedAt]
        omega
      | ok u =>
        simp [syncTask, hcreate, hatt, hparse, hts, hnote, hupd, proposedCreatedAt]
        omega
    · simp [syncTask, hcreate, hatt, hparse, hts, hnote, proposedCreatedAt]
      omega

/-- Sample remote bookmark used to instantiate the reconciliation theorems. -/
def sampleKkBookmark : KkBookmark :=
  ⟨"bm1".toList, "2024-01-01T00:00:00Z".toList, some "foo".toList⟩

/-- Sample environment: the bookmark already exists remotely, every client
call succeeds, and the remote `createdAt` parses to `100`. -/
def sampleSyncEnv : SyncEnv where
  createBookmark := .ok (sampleKkBookmark, true)
  attachTags := .ok ()
  updateBookmark := .ok ()
  iso8601ToUnix := fun _ => .ok 100
  unixToISO8601 := fun _ => "1970-01-01T00:00:50Z".toList

/-- Sample local bookmark with Unix timestamp `50`, earlier than the remote
`100`. -/
def sampleConvBookmark : ConvBookmark :=
  ⟨"https://example.com".toList, 50, none, some "bar".toList, []⟩

/-- C4 witness: the earliest-wins theorem applied at the sample environment
(local timestamp 50, remote timestamp 100). -/
theorem syncTask_earliest_wins_witness :
    (proposedCreatedAt (syncTask sampleSyncEnv sampleConvBookmark) =
        some (sampleSyncEnv.unixToISO8601 sampleConvBookmark.createdAt) ↔
      sampleConvBookmark.createdAt < 100) ∧
    (proposedCreatedAt (syncTask sampleSyncEnv sampleConvBookmark) = none ↔
      ¬ sampleConvBookmark.createdAt < 100) ∧
    (if (proposedCreatedAt (syncTask sampleSyncEnv sampleConvBookmark)).isSome then
        sampleConvBookmark.createdAt else (100 : Int)) = min 100 sampleConvBookmark.createdAt :=
  syncTask_earliest_wins sampleSyncEnv sampleConvBookmark sampleKkBookmark 100 rfl rfl rfl

/-- C5: for an already-existing remote bookmark, `syncTask` classifies the
record as Skipped exactly when both the timestamp-changed flag and the
note-changed flag are false (and then issues no update call); when at least
one flag is set it issues exactly one update call, and classifies the
record as Updated when that call succeeds. -/
theorem syncTask_skip_update_flags (env : SyncEnv) (bm : ConvBookmark) (kbm : KkBookmark) (R : Int)
    (hcreate : env.createBookmark = .ok (kbm, true))
    (hattach : env.attachTags = .ok ())
    (hparse : env.iso8601ToUnix kbm.createdAt = .ok R) :
    ((syncTask env bm).1 = .skipped ↔
      (¬ bm.createdAt < R ∧ (mergeNotes kbm.note bm.note).2 = false)) ∧
    ((syncTask env bm).1 = .skipped → (syncTask env bm).2 = []) ∧
    ((bm.createdAt < R ∨ (mergeNotes kbm.note bm.note).2 = true) →
      (syncTask env bm).2.length = 1 ∧
      (env.updateBookmark = .ok () → (syncTask env bm).1 = .updated)) := by
  have hatt : (if bm.tags.length > 0 then env.attachTags else Except.ok ()) = Except.ok () := by
    rw [hattach, ite_self]
  by_cases hts : bm.createdAt < R
  · by_cases hnote : (mergeNotes kbm.note bm.note).2 = true
    · cases hupd : env.updateBookmark with
      | error e => simp [syncTask, hcreate, hatt, hparse, hts, hnote, hupd]
      | ok u => simp [syncTask, hcreate, hatt, hparse, hts, hnote, hupd]
    · cases hupd : env.updateBookmark with
      | error e => simp [syncTask, hcreate, hatt, hparse, hts, hnote, hupd]
      | ok u => simp [syncTask, hcreate, hatt, hparse, hts, hnote, hupd]
  · by_cases hnote : (mergeNotes kbm.note bm.note).2 = true
    · cases hupd : env.updateBookmark with
      | error e => simp [syncTask, hcreate, hatt, hparse, hts, hnote, hupd]
      | ok u => simp [syncTask, hcreate, hatt, hparse, hts, hnote, hupd]
    · simp [syncTask, hcreate, hatt, hparse, hts, hnote]

/-- C5 witness: the skip/update classification theorem applied at the sample
environment. -/
theorem syncTask_skip_update_flags_witness :
    ((syncTask sampleSyncEnv sampleConvBookmark).1 = .skipped ↔
      (¬ sampleConvBookmark.createdAt < 100 ∧
        (mergeNotes sampleKkBookmark.note sampleConvBookmark.note).2 = false)) ∧
    ((syncTask sampleSyncEnv sampleConvBookmark).1 = .skipped →
      (syncTask sampleSyncEnv sampleConvBookmark).2 = []) ∧
    ((sampleConvBookmark.createdAt < 100 ∨
        (mergeNotes sampleKkBookmark.note sampleConvBookmark.note).2 = true) →
      (syncTask sampleSyncEnv sampleConvBookmark).2.length = 1 ∧
      (sampleSyncEnv.updateBookmark = .ok () →
        (syncTask sampleSyncEnv sampleConvBookmark).1 = .updated)) :=
  syncTask_skip_update_flags sampleSyncEnv sampleConvBookmark sampleKkBookmark 100 rfl rfl rfl

/-! ## Claim C10: the result-draining loop of `Syncer.Sync` -/

/-- One per-bookmark result as sent over `syncTaskCh` in `Syncer.Sync`
(`syncTaskResult{url, status, err}`). -/
structure SyncTaskResult where
  url : List Char
  status : SyncStatus
  errMsg : List Char
deriving DecidableEq, Repr

/-- One entry of the failure list returned by `Sync`
(`SyncError{URL, Err}`). -/
structure SyncErrorE where
  url : List Char
  errMsg : List Char
deriving DecidableEq, Repr

/-- The status histogram built by `Sync`; Go's `map[SyncStatus]int` with
absent keys reading as zero becomes four zero-initialised counters. -/
structure SyncTally where
  failed : Nat
  created : Nat
  updated : Nat
  skipped : Nat
deriving DecidableEq, Repr

/-- One iteration of the result-processing loop of `Syncer.Sync`
(the `switch r.status` at syncer.go:151-163): bump the counter of the
result's status and, on failure, append a `SyncError`. -/
def processSyncResult (acc : SyncTally × List SyncErrorE) (r : SyncTaskResult) :
    SyncTally × List SyncErrorE :=
  match r.status with
  | .failed => ({ acc.1 with failed := acc.1.failed + 1 }, acc.2 ++ [⟨r.url, r.errMsg⟩])
  | .created => ({ acc.1 with created := acc.1.created + 1 }, acc.2)
  | .updated => ({ acc.1 with updated := acc.1.updated + 1 }, acc.2)
  | .skipped => ({ acc.1 with skipped := acc.1.skipped + 1 }, acc.2)

/-- The drain loop of `Syncer.Sync` over the sequence of received results
(on cancellation the Go loop returns early, which is this fold over the
prefix processed so far). -/
def drainSyncResults (rs : List SyncTaskResult) : SyncTally × List SyncErrorE :=
  rs.foldl processSyncResult (⟨0, 0, 0, 0⟩, [])

/-- Total of all four counters of the histogram. -/
def tallyTotal (t : SyncTally) : Nat := t.failed + t.created + t.updated + t.skipped

theorem drainSyncResults_errs_aux (rs : List SyncTaskResult) :
    ∀ acc : SyncTally × List SyncErrorE, acc.2.length = acc.1.failed →
      ((rs.foldl processSyncResult acc).2).length = (rs.foldl processSyncResult acc).1.failed := by
  induction rs with
  | nil => intro acc h; simpa using h
  | cons r t ih =>
    intro acc h
    rw [List.foldl_cons]
    apply ih
    cases hs : r.status <;> simp [processSyncResult, hs, h]

theorem drainSyncResults_total_aux (rs : List SyncTaskResult) :
    ∀ acc : SyncTally × List SyncErrorE,
      tallyTotal (rs.foldl processSyncResult acc).1 = tallyTotal acc.1 + rs.length := by
  induction rs with
  | nil => intro acc; simp
  | cons r t ih =>
    intro acc
    rw [List.foldl_cons, ih]
    cases hs : r.status <;> simp [processSyncResult, hs, tallyTotal] <;> omega

/-- C10: in every run of the `Sync` drain loop (including the early-return
prefix on cancellation) the failure list and the histogram agree — the
number of `SyncError` entries equals the `failed` counter, the four counters
sum to the number of processed results, and each processed result increments
the histogram total by exactly one. -/
theorem sync_histogram_agrees :
    (∀ rs : List SyncTaskResult,
      ((drainSyncResults rs).2).length = (drainSyncResults rs).1.failed ∧
      tallyTotal (drainSyncResults rs).1 = rs.length) ∧
    (∀ (acc : SyncTally × List SyncErrorE) (r : SyncTaskResult),
      tallyTotal (processSyncResult acc r).1 = tallyTotal acc.1 + 1) := by
  constructor
  · intro rs
    constructor
    · exact drainSyncResults_errs_aux rs _ rfl
    · simpa [tallyTotal] using drainSyncResults_total_aux rs (⟨0, 0, 0, 0⟩, [])
  · intro acc r
    cases hs : r.status <;> simp [processSyncResult, hs, tallyTotal] <;> omega

/-! ## The persistent cache (internal/hackernews cache file) -/

/-- Error values of the hackernews package: the sentinel errors of the
client, context errors, `os.ErrNotExist`, I/O and JSON failures, and
`fmt.Errorf("...: %w", e)` wrapping. `errors.Is` unwraps `wrapped`. -/
inductive GoErr where
  | itemNotFound
  | itemDeleted
  | itemDead
  | rateLimited
  | requestFailed
  | decodeFailed
  | ctxCanceled
  | ctxDeadline
  | notExist
  | ioErr
  | unmarshalErr
  | wrapped (inner : GoErr)
deriving DecidableEq, Repr

/-- Go's `errors.Is err target` for the sentinel targets above: unwrap
`wrapped` layers and compare. -/
def errIs : GoErr → GoErr → Bool
  | .wrapped e, target => errIs e target
  | e, target => e == target

/-- `errors.Is` lifted to a nilable error; `errors.Is(nil, target)` is false. -/
def optErrIs (err : Option GoErr) (target : GoErr) : Bool :=
  match err with
  | none => false
  | some e => errIs e target

/-- A Hacker News item as far as the cache logic consults it (`Item.ID`,
`Item.Deleted`, `Item.Dead`; the remaining JSON fields never influence the
modelled control flow). -/
structure ItemM where
  id : Int
  deleted : Bool
  dead : Bool
deriving DecidableEq, Repr

/-- Contents of one persisted cache file: either bytes on which
`json.Unmarshal` fails, or a decoded `cacheEntry{Item, Error}`. -/
inductive CacheFile where
  | corrupt
  | parsed (item : Option ItemM) (errTag : List Char)
deriving DecidableEq, Repr

/-- `cacheErrDeleted` tag constant. -/
def cacheErrDeleted : List Char := "deleted".toList

/-- `cacheErrDead` tag constant. -/
def cacheErrDead : List Char := "dead".toList

/-- Embedding of `CachedClient.readCache`: a missing file is a read error;
undecodable bytes are an unmarshal error; an entry with both fields set is
`os.ErrNotExist`; a recognised error tag returns the cached sentinel; an
unknown tag falls through; a nil item is `os.ErrNotExist`. -/
def readCache (file : Option CacheFile) : Except GoErr ItemM :=
  match file with
  | none => .error .ioErr
  | some .corrupt => .error .unmarshalErr
  | some (.parsed item errTag) =>
    if item.isSome && !errTag.isEmpty then .error .notExist
    else if errTag = cacheErrDeleted then .error .itemDeleted
    else if errTag = cacheErrDead then .error .itemDead
    else
      match item with
      | none => .error .notExist
      | some it => .ok it

/-- What `CachedClient.GetItem` does with the `readCache` outcome
(part_003:80-91): success is a cache hit, the deleted/dead sentinels are
negative cache hits, every other error falls through to a network fetch. -/
inductive CacheConsult where
  | hit (it : ItemM)
  | negativeHit (e : GoErr)
  | fallThrough
deriving DecidableEq, Repr

/-- The cache-consultation step of `CachedClient.GetItem`. -/
def getItemCacheConsult (file : Option CacheFile) : CacheConsult :=
  match readCache file with
  | .ok it => .hit it
  | .error e =>
    if errIs e .itemDeleted || errIs e .itemDead then .negativeHit e
    else .fallThrough

/-- Embedding of `CachedClient.writeCache`: persist the item on success,
persist the error tag for the deleted/dead sentinels, and persist nothing
for any other error or a nil item. -/
def writeCache (item : Option ItemM) (err : Option GoErr) : Option CacheFile :=
  if err = none ∧ item ≠ none then some (.parsed item [])
  else if optErrIs err .itemDeleted then some (.parsed none cacheErrDeleted)
  else if optErrIs err .itemDead then some (.parsed none cacheErrDead)
  else none

/-- The caching step of `CachedClient.GetItem` after the fetch
(part_003:110-112): skip the write entirely when the context was cancelled,
otherwise write through `writeCache`. -/
def getItemCacheWrite (ctxCancelled : Bool) (item : Option ItemM) (err : Option GoErr) :
    Option CacheFile :=
  if ctxCancelled then none else writeCache item err

/-- The persisted store (cache directory) after one `GetItem` call for key
`id` whose fetch produced `(item, err)`: the file written by
`getItemCacheWrite`, if any, overlays the previous store. -/
def storeAfterGetItem (store : Int → Option CacheFile) (id : Int) (ctxCancelled : Bool)
    (item : Option ItemM) (err : Option GoErr) : Int → Option CacheFile :=
  fun k =>
    match getItemCacheWrite ctxCancelled item err with
    | some f => if k = id then some f else store k
    | none => store k

/-! ## Claims C6 and C9: cache write and read behaviour -/

/-- C6: `writeCache` persists an entry exactly for a successful non-nil item
or for the permanent deleted/dead errors; for any other error (or a nil
item) it stores nothing, so after a `GetItem` whose fetch failed with such
an error the persisted store still has no entry for that key. -/
theorem writeCache_never_persists_transient :
    ∀ (item : Option ItemM) (err : Option GoErr),
      ((writeCache item err) ≠ none ↔
        ((err = none ∧ item ≠ none) ∨ optErrIs err .itemDeleted = true ∨
          optErrIs err .itemDead = true)) ∧
      (∀ e, err = some e → errIs e .itemDeleted = false → errIs e .itemDead = false →
        writeCache item err = none) ∧
      (∀ (store : Int → Option CacheFile) (id : Int) (ctxC : Bool) (e : GoErr),
        err = some e → errIs e .itemDeleted = false → errIs e .itemDead = false →
        store id = none → storeAfterGetItem store id ctxC item err id = none) := by
  intro item err
  refine ⟨?_, ?_, ?_⟩
  · unfold writeCache
    split_ifs with h1 h2 h3 <;> simp_all [optErrIs]
  · intro e he hdel hdead
    subst he
    unfold writeCache
    simp [optErrIs, hdel, hdead]
  · intro store id ctxC e he hdel hdead hstore
    subst he
    unfold storeAfterGetItem getItemCacheWrite
    by_cases hc : ctxC = true
    · simp [hc, hstore]
    · simp only [Bool.not_eq_true] at hc
      have hw : writeCache item (some e) = none := by
        unfold writeCache
        simp [optErrIs, hdel, hdead]
      simp [hc, hw, hstore]

/-- C6 witness: the transient non-caching theorem applied at a network
failure (`requestFailed`) with no item, an empty store, key 7, and an
uncancelled context. -/
theorem writeCache_never_persists_transient_witness :
    writeCache none (some .requestFailed) = none ∧
    storeAfterGetItem (fun _ => none) 7 false none (some .requestFailed) 7 = none :=
  ⟨(writeCache_never_persists_transient none (some .requestFailed)).2.1
      .requestFailed rfl rfl rfl,
   (writeCache_never_persists_transient none (some .requestFailed)).2.2
      (fun _ => none) 7 false .requestFailed rfl rfl rfl rfl⟩

/-- C9: corrupted or malformed persisted entries — unparsable JSON, an entry
with both the item and a non-empty error tag, an entry with an unrecognised
error tag, and an entry with neither field set — make `readCache` report an
error other than the deleted/dead sentinels, and `GetItem`'s consultation
step falls through to a network fetch instead of propagating an error. -/
theorem readCache_malformed_is_miss :
    (readCache (some .corrupt) = .error .unmarshalErr ∧
      getItemCacheConsult (some .corrupt) = .fallThrough) ∧
    (readCache none = .error .ioErr ∧ getItemCacheConsult none = .fallThrough) ∧
    (∀ (it : ItemM) (tag : List Char), tag ≠ [] →
      readCache (some (.parsed (some it) tag)) = .error .notExist ∧
      getItemCacheConsult (some (.parsed (some it) tag)) = .fallThrough) ∧
    (∀ tag : List Char, tag ≠ cacheErrDeleted → tag ≠ cacheErrDead →
      readCache (some (.parsed none tag)) = .error .notExist ∧
      getItemCacheConsult (some (.parsed none tag)) = .fallThrough) := by
  refine ⟨⟨rfl, rfl⟩, ⟨rfl, rfl⟩, ?_, ?_⟩
  · intro it tag htag
    have hrc : readCache (some (.parsed (some it) tag)) = .error .notExist := by
      unfold readCache
      simp [htag]
    exact ⟨hrc, by unfold getItemCacheConsult; rw [hrc]; rfl⟩
  · intro tag hdel hdead
    have hrc : readCache (some (.parsed none tag)) = .error .notExist := by
      unfold readCache
      simp [hdel, hdead]
    exact ⟨hrc, by unfold getItemCacheConsult; rw [hrc]; rfl⟩

/-- C9 witness: the malformed-entry theorem applied at a both-fields-set
entry (item and tag "deleted") and at an unknown tag "weird". -/
theorem readCache_malformed_is_miss_witness :
    readCache (some (.parsed (some ⟨1, false, false⟩) "deleted".toList)) = .error .notExist ∧
    getItemCacheConsult (some (.parsed none "weird".toList)) = .fallThrough :=
  ⟨(readCache_malformed_is_miss.2.2.1 ⟨1, false, false⟩ "deleted".toList (by decide)).1,
   (readCache_malformed_is_miss.2.2.2 "weird".toList (by decide) (by decide)).2⟩

/-! ## 64-bit duration arithmetic (Go `time.Duration`) -/

/-- Reduce an integer to the 64-bit two's-complement range
`[-2^63, 2^63)`, as Go's `int64`/`time.Duration` arithmetic does. -/
def wrap64 (x : Int) : Int := (x + 2 ^ 63) % 2 ^ 64 - 2 ^ 63

/-- Go's `1 << attempt` on a 64-bit int: `2 ^ attempt` truncated to 64 bits
(zero once every set bit is shifted out). -/
def goShiftLeft1 (attempt : Nat) : Int := wrap64 (2 ^ attempt)

/-- The backoff both clients compute for iteration `attempt` (0-based):
`min(retryWait * time.Duration(1 << attempt), 30*time.Second)`, in
nanoseconds, with 64-bit wrap-around on the shift and the product. -/
def goBackoff (retryWait : Int) (attempt : Nat) : Int :=
  min (wrap64 (retryWait * goShiftLeft1 attempt)) 30000000000

/-! ## The Hacker News read client retry loop (`Client.GetItem`) -/

/-- Environment of one `Client.GetItem` run: the outcome `fetchItem` would
produce on each attempt (0-based), and the context-cancellation signal as
observed at the three polling points of iteration `n` — the top-of-loop
check, the check after a failed fetch, and the cancellable backoff wait. -/
structure HNEnv where
  fetch : Nat → Except GoErr ItemM
  cancelTop : Nat → Bool
  cancelAfterFetch : Nat → Bool
  cancelDuringWait : Nat → Bool

/-- Result of a retry loop run: success, an error returned at once
(not-found/deleted/dead), a context-cancellation return, or retry
exhaustion carrying the last retryable error. -/
inductive RetryOutcome where
  | success (it : ItemM)
  | immediateErr (e : GoErr)
  | cancelled
  | exhausted (last : Option GoErr)
deriving DecidableEq, Repr

/-- The loop body of `Client.GetItem` (hackernews client, retry loop),
by remaining iterations (`fuel`); alongside the outcome it returns the
number of fetch attempts made and the list of completed backoff waits
(a wait aborted by cancellation is not recorded). -/
def hnGo (env : HNEnv) (retryWait : Int) :
    Nat → Nat → Option GoErr → List Int → RetryOutcome × Nat × List Int
  | 0, attempt, lastErr, waits => (.exhausted lastErr, attempt, waits)
  | fuel + 1, attempt, lastErr, waits =>
    if env.cancelTop attempt then (.cancelled, attempt, waits)
    else
      match env.fetch attempt with
      | .ok it => (.success it, attempt + 1, waits)
      | .error e =>
        if errIs e .itemNotFound || errIs e .itemDeleted || errIs e .itemDead then
          (.immediateErr e, attempt + 1, waits)
        else if env.cancelAfterFetch attempt then (.cancelled, attempt + 1, waits)
        else if env.cancelDuringWait attempt then (.cancelled, attempt + 1, waits)
        else hnGo env retryWait fuel (attempt + 1) (some e) (waits ++ [goBackoff retryWait attempt])

/-- Embedding of `Client.GetItem` (hackernews client): run the retry loop
for `maxRetries` iterations from attempt 0. -/
def hnGetItem (env : HNEnv) (retryWait : Int) (maxRetries : Nat) :
    RetryOutcome × Nat × List Int :=
  hnGo env retryWait maxRetries 0 none []

/-! ## The Karakeep write client retry loop (`Client.doRequestWithRetries`) -/

/-- Error values of the karakeep package: the sentinel errors, HTTP errors
with their status code, context errors, transport failures, and wrapping. -/
inductive KkErr where
  | unauthorized
  | bookmarkNotFound
  | rateLimited
  | httpError (status : Nat)
  | ctxCanceled
  | ctxDeadline
  | requestFailed
  | decodeFailed
  | wrapped (inner : KkErr)
deriving DecidableEq, Repr

/-- Go's `errors.Is` over karakeep error values. -/
def kkErrIs : KkErr → KkErr → Bool
  | .wrapped e, target => kkErrIs e target
  | e, target => e == target

/-- Go's `errors.As(err, &httpErr)`: the status code of the first
`HTTPError` in the wrap chain, if any. -/
def kkAsHTTPStatus : KkErr → Option Nat
  | .httpError s => some s
  | .wrapped e => kkAsHTTPStatus e
  | _ => none

/-- `HTTPError.IsClientError`: true for 4xx status codes. -/
def isClientError (status : Nat) : Bool := 400 ≤ status && status < 500

/-- `errors.As` + `IsClientError`, the client-error test of
`doRequestWithRetries`. -/
def kkIsClientErr (e : KkErr) : Bool :=
  match kkAsHTTPStatus e with
  | some s => isClientError s
  | none => false

/-- Environment of one `doRequestWithRetries` run: the error `doRequest`
would produce on each attempt (`none` = success), and the cancellation
signal at the top-of-loop check and during the backoff wait. -/
structure KkEnv where
  request : Nat → Option KkErr
  cancelTop : Nat → Bool
  cancelDuringWait : Nat → Bool

/-- Result of a `doRequestWithRetries` run. -/
inductive KkOutcome where
  | success
  | terminalErr (e : KkErr)
  | cancelled
  | exhausted (last : Option KkErr)
deriving DecidableEq, Repr

/-- The loop body of `Client.doRequestWithRetries` (karakeep client), by
remaining iterations; returns the outcome, the number of requests made, and
the completed backoff waits. -/
def kkGo (env : KkEnv) (retryWait : Int) :
    Nat → Nat → Option KkErr → List Int → KkOutcome × Nat × List Int
  | 0, attempt, lastErr, waits => (.exhausted lastErr, attempt, waits)
  | fuel + 1, attempt, lastErr, waits =>
    if env.cancelTop attempt then (.cancelled, attempt, waits)
    else
      match env.request attempt with
      | none => (.success, attempt + 1, waits)
      | some e =>
        if kkErrIs e .unauthorized || kkErrIs e .bookmarkNotFound then
          (.terminalErr e, attempt + 1, waits)
        else if kkIsClientErr e then
          (.terminalErr e, attempt + 1, waits)
        else if kkErrIs e .ctxCanceled || kkErrIs e .ctxDeadline then
          (.terminalErr e, attempt + 1, waits)
        else if env.cancelDuringWait attempt then (.cancelled, attempt + 1, waits)
        else kkGo env retryWait fuel (attempt + 1) (some e) (waits ++ [goBackoff retryWait attempt])

/-- Embedding of `Client.doRequestWithRetries`. -/
def kkDoRequestWithRetries (env : KkEnv) (retryWait : Int) (maxRetries : Nat) :
    KkOutcome × Nat × List Int :=
  kkGo env retryWait maxRetries 0 none []

/-- The status-code classification of `Client.doRequest` (karakeep client):
401 becomes the unauthorized sentinel and 429 the rate-limited sentinel
before the per-endpoint response handler ever runs. -/
def doRequestOutcome (status : Nat) (handleResp : Nat → Option KkErr) : Option KkErr :=
  if status = 401 then some .unauthorized
  else if status = 429 then some .rateLimited
  else handleResp status

/-- The response handler of `UpdateBookmark` (and, identically, of
`AttachTags`): 404 is the bookmark-not-found sentinel, any other non-200 is
an `HTTPError` with that status. -/
def updateHandleResp (status : Nat) : Option KkErr :=
  if status = 404 then some .bookmarkNotFound
  else if status ≠ 200 then some (.httpError status)
  else none

/-! ## Retry-loop helper predicates and lemmas -/

/-- A fetch outcome the Hacker News loop retries: an error that is none of
the three known sentinels. -/
def hnRetryable (r : Except GoErr ItemM) : Prop :=
  ∃ e, r = .error e ∧ errIs e .itemNotFound = false ∧ errIs e .itemDeleted = false ∧
    errIs e .itemDead = false

/-- No cancellation is observed at any polling point of iteration `j`. -/
def hnQuiet (env : HNEnv) (j : Nat) : Prop :=
  env.cancelTop j = false ∧ env.cancelAfterFetch j = false ∧ env.cancelDuringWait j = false

/-- A request outcome the Karakeep loop retries: an error that is not
unauthorized, not bookmark-not-found, not a 4xx `HTTPError`, and not a
context error. -/
def kkRetryable (r : Option KkErr) : Prop :=
  ∃ e, r = some e ∧ kkErrIs e .unauthorized = false ∧ kkErrIs e .bookmarkNotFound = false ∧
    kkIsClientErr e = false ∧ kkErrIs e .ctxCanceled = false ∧ kkErrIs e .ctxDeadline = false

/-- No cancellation is observed at either polling point of iteration `j`. -/
def kkQuiet (env : KkEnv) (j : Nat) : Prop :=
  env.cancelTop j = false ∧ env.cancelDuringWait j = false

theorem hnGo_run_prefix (env : HNEnv) (w : Int) :
    ∀ (k fuel attempt : Nat) (lastErr : Option GoErr) (waits : List Int),
      (∀ j, attempt ≤ j → j < attempt + k → hnQuiet env j ∧ hnRetryable (env.fetch j)) →
      k ≤ fuel →
      ∃ lastErr2, hnGo env w fuel attempt lastErr waits =
        hnGo env w (fuel - k) (attempt + k) lastErr2
          (waits ++ (List.range k).map (fun j => goBackoff w (attempt + j))) := by
  intro k
  induction k with
  | zero =>
    intro fuel attempt lastErr waits hpre hk
    exact ⟨lastErr, by simp⟩
  | succ k ih =>
    intro fuel attempt lastErr waits hpre hk
    obtain ⟨⟨hct, hcaf, hcdw⟩, e, he, h1, h2, h3⟩ :=
      hpre attempt (le_refl _) (by omega)
    cases fuel with
    | zero => omega
    | succ f =>
      have hstep : hnGo env w (f + 1) attempt lastErr waits =
          hnGo env w f (attempt + 1) (some e) (waits ++ [goBackoff w attempt]) := by
        simp [hnGo, hct, he, h1, h2, h3, hcaf, hcdw]
      rw [hstep]
      obtain ⟨lastErr2, hrec⟩ := ih f (attempt + 1) (some e) (waits ++ [goBackoff w attempt])
        (fun j hj1 hj2 => hpre j (by omega) (by omega)) (by omega)
      refine ⟨lastErr2, ?_⟩
      rw [hrec]
      have harith : f - k = f + 1 - (k + 1) := by omega
      have hatt : attempt + 1 + k = attempt + (k + 1) := by omega
      have hmap : (List.range (k + 1)).map (fun j => goBackoff w (attempt + j)) =
          goBackoff w attempt :: (List.range k).map (fun j => goBackoff w (attempt + 1 + j)) := by
        rw [List.range_succ_eq_map]
        simp only [List.map_cons, List.map_map]
        congr 1
        apply List.map_congr_left
        intro a ha
        simp only [Function.comp_apply]
        congr 1
        omega
      have hlist : (waits ++ [goBackoff w attempt]) ++
            (List.range k).map (fun j => goBackoff w (attempt + 1 + j)) =
          waits ++ (List.range (k + 1)).map (fun j => goBackoff w (attempt + j)) := by
        rw [List.append_assoc, hmap]
        rfl
      rw [harith, hatt, hlist]

theorem kkGo_run_prefix (env : KkEnv) (w : Int) :
    ∀ (k fuel attempt : Nat) (lastErr : Option KkErr) (waits : List Int),
      (∀ j, attempt ≤ j → j < attempt + k → kkQuiet env j ∧ kkRetryable (env.request j)) →
      k ≤ fuel →
      ∃ lastErr2, kkGo env w fuel attempt lastErr waits =
        kkGo env w (fuel - k) (attempt + k) lastErr2
          (waits ++ (List.range k).map (fun j => goBackoff w (attempt + j))) := by
  intro k
  induction k with
  | zero =>
    intro fuel attempt lastErr waits hpre hk
    exact ⟨lastErr, by simp⟩
  | succ k ih =>
    intro fuel attempt lastErr waits hpre hk
    obtain ⟨⟨hct, hcdw⟩, e, he, h1, h2, h3, h4, h5⟩ :=
      hpre attempt (le_refl _) (by omega)
    cases fuel with
    | zero => omega
    | succ f =>
      have hstep : kkGo env w (f + 1) attempt lastErr waits =
          kkGo env w f (attempt + 1) (some e) (waits ++ [goBackoff w attempt]) := by
        simp [kkGo, hct, he, h1, h2, h3, h4, h5, hcdw]
      rw [hstep]
      obtain ⟨lastErr2, hrec⟩ := ih f (attempt + 1) (some e) (waits ++ [goBackoff w attempt])
        (fun j hj1 hj2 => hpre j (by omega) (by omega)) (by omega)
      refine ⟨lastErr2, ?_⟩
      rw [hrec]
      have harith : f - k = f + 1 - (k + 1) := by omega
      have hatt : attempt + 1 + k = attempt + (k + 1) := by omega
      have hmap : (List.range (k + 1)).map (fun j => goBackoff w (attempt + j)) =
          goBackoff w attempt :: (List.range k).map (fun j => goBackoff w (attempt + 1 + j)) := by
        rw [List.range_succ_eq_map]
        simp only [List.map_cons, List.map_map]
        congr 1
        apply List.map_congr_left
        intro a ha
        simp only [Function.comp_apply]
        congr 1
        omega
      have hlist : (waits ++ [goBackoff w attempt]) ++
            (List.range k).map (fun j => goBackoff w (attempt + 1 + j)) =
          waits ++ (List.range (k + 1)).map (fun j => goBackoff w (attempt + j)) := by
        rw [List.append_assoc, hmap]
        rfl
      rw [harith, hatt, hlist]

theorem hnGo_waits_extend (env : HNEnv) (w : Int) :
    ∀ (fuel attempt : Nat) (lastErr : Option GoErr) (waits : List Int),
      ∃ tail, (hnGo env w fuel attempt lastErr waits).2.2 = waits ++ tail := by
  intro fuel
  induction fuel with
  | zero =>
    intro attempt lastErr waits
    exact ⟨[], by simp [hnGo]⟩
  | succ f ih =>
    intro attempt lastErr waits
    by_cases h1 : env.cancelTop attempt = true
    · exact ⟨[], by simp [hnGo, h1]⟩
    · rw [Bool.not_eq_true] at h1
      cases hf : env.fetch attempt with
      | ok it => exact ⟨[], by simp [hnGo, h1, hf]⟩
      | error e =>
        by_cases h2 : (errIs e .itemNotFound || errIs e .itemDeleted || errIs e .itemDead) = true
        · exact ⟨[], by simp [hnGo, h1, hf, h2]⟩
        · rw [Bool.not_eq_true] at h2
          by_cases h3 : env.cancelAfterFetch attempt = true
          · exact ⟨[], by simp [hnGo, h1, hf, h2, h3]⟩
          · rw [Bool.not_eq_true] at h3
            by_cases h4 : env.cancelDuringWait attempt = true
            · exact ⟨[], by simp [hnGo, h1, hf, h2, h3, h4]⟩
            · rw [Bool.not_eq_true] at h4
              obtain ⟨tail, htail⟩ :=
                ih (attempt + 1) (some e) (waits ++ [goBackoff w attempt])
              refine ⟨goBackoff w attempt :: tail, ?_⟩
              have hstep : hnGo env w (f + 1) attempt lastErr waits =
                  hnGo env w f (attempt + 1) (some e) (waits ++ [goBackoff w attempt]) := by
                simp [hnGo, h1, hf, h2, h3, h4]
              rw [hstep, htail, List.append_assoc]
              rfl

theorem kkGo_waits_extend (env : KkEnv) (w : Int) :
    ∀ (fuel attempt : Nat) (lastErr : Option KkErr) (waits : List Int),
      ∃ tail, (kkGo env w fuel attempt lastErr waits).2.2 = waits ++ tail := by
  intro fuel
  induction fuel with
  | zero =>
    intro attempt lastErr waits
    exact ⟨[], by simp [kkGo]⟩
  | succ f ih =>
    intro attempt lastErr waits
    by_cases h1 : env.cancelTop attempt = true
    · exact ⟨[], by simp [kkGo, h1]⟩
    · rw [Bool.not_eq_true] at h1
      cases hf : env.request attempt with
      | none => exact ⟨[], by simp [kkGo, h1, hf]⟩
      | some e =>
        by_cases h2 : (kkErrIs e .unauthorized || kkErrIs e .bookmarkNotFound) = true
        · exact ⟨[], by simp [kkGo, h1, hf, h2]⟩
        · rw [Bool.not_eq_true] at h2
          by_cases h3 : kkIsClientErr e = true
          · exact ⟨[], by simp [kkGo, h1, hf, h2, h3]⟩
          · rw [Bool.not_eq_true] at h3
            by_cases h4 : (kkErrIs e .ctxCanceled || kkErrIs e .ctxDeadline) = true
            · exact ⟨[], by simp [kkGo, h1, hf, h2, h3, h4]⟩
            · rw [Bool.not_eq_true] at h4
              by_cases h5 : env.cancelDuringWait attempt = true
              · exact ⟨[], by simp [kkGo, h1, hf, h2, h3, h4, h5]⟩
              · rw [Bool.not_eq_true] at h5
                obtain ⟨tail, htail⟩ :=
                  ih (attempt + 1) (some e) (waits ++ [goBackoff w attempt])
                refine ⟨goBackoff w attempt :: tail, ?_⟩
                have hstep : kkGo env w (f + 1) attempt lastErr waits =
                    kkGo env w f (attempt + 1) (some e) (waits ++ [goBackoff w attempt]) := by
                  simp [kkGo, h1, hf, h2, h3, h4, h5]
                rw [hstep, htail, List.append_assoc]
                rfl

theorem wrap64_eq_self {x : Int} (h1 : -(2 ^ 63) ≤ x) (h2 : x < 2 ^ 63) : wrap64 x = x := by
  unfold wrap64
  omega

theorem goBackoff_eq_min {w : Int} {k : Nat} (hw : 0 ≤ w) (hov : w * 2 ^ k < 2 ^ 63) :
    goBackoff w k = min (w * 2 ^ k) 30000000000 := by
  rcases eq_or_lt_of_le hw with hw0 | hw1
  · subst hw0
    simp [goBackoff, wrap64_eq_self (by norm_num) (by norm_num : (0:Int) < 2 ^ 63)]
  · have hp : (0:Int) < 2 ^ k := by positivity
    have h2k : (2:Int) ^ k ≤ w * 2 ^ k := le_mul_of_one_le_left (le_of_lt hp) hw1
    have h2k63 : (2:Int) ^ k < 2 ^ 63 := lt_of_le_of_lt h2k hov
    have hsh : goShiftLeft1 k = 2 ^ k := by
      unfold goShiftLeft1
      exact wrap64_eq_self (le_trans (by norm_num) (le_of_lt hp)) h2k63
    have hwr : wrap64 (w * 2 ^ k) = w * 2 ^ k :=
      wrap64_eq_self (le_trans (by norm_num) (mul_nonneg hw (le_of_lt hp))) hov
    rw [goBackoff, hsh, hwr]

/-! ## Claims C7 and C8: retry-loop behaviour of both clients -/

/-- C7: terminal errors end both retry loops immediately with no further
attempt. The read client returns at once on the not-found/deleted/dead
sentinels; the write client returns at once on unauthorized,
bookmark-not-found and any 4xx `HTTPError`; a 429 never reaches the loop as
an `HTTPError` (it is classified rate-limited by `doRequest` first) and is
retried; and `doRequest`/`updateHandleResp` map 401, 404 and the remaining
4xx statuses to those error classes. -/
theorem clients_terminal_errors_immediate :
    (∀ (env : HNEnv) (w : Int) (m i : Nat) (e : GoErr),
      i < m → (∀ j, j ≤ i → hnQuiet env j) → (∀ j, j < i → hnRetryable (env.fetch j)) →
      env.fetch i = .error e →
      (errIs e .itemNotFound || errIs e .itemDeleted || errIs e .itemDead) = true →
      (hnGetItem env w m).1 = .immediateErr e ∧ (hnGetItem env w m).2.1 = i + 1) ∧
    (∀ (env : KkEnv) (w : Int) (m i : Nat) (e : KkErr),
      i < m → (∀ j, j ≤ i → kkQuiet env j) → (∀ j, j < i → kkRetryable (env.request j)) →
      env.request i = some e →
      (kkErrIs e .unauthorized || kkErrIs e .bookmarkNotFound || kkIsClientErr e) = true →
      (kkDoRequestWithRetries env w m).1 = .terminalErr e ∧
      (kkDoRequestWithRetries env w m).2.1 = i + 1) ∧
    (∀ (env : KkEnv) (w : Int) (m i : Nat),
      i + 1 < m → (∀ j, j ≤ i + 1 → kkQuiet env j) → (∀ j, j < i → kkRetryable (env.request j)) →
      env.request i = some .rateLimited → env.request (i + 1) = none →
      (kkDoRequestWithRetries env w m).1 = .success ∧
      (kkDoRequestWithRetries env w m).2.1 = i + 2) ∧
    (∀ h : Nat → Option KkErr, doRequestOutcome 401 h = some .unauthorized ∧
      doRequestOutcome 429 h = some .rateLimited) ∧
    (updateHandleResp 404 = some .bookmarkNotFound) ∧
    (∀ s : Nat, 400 ≤ s → s < 500 → s ≠ 401 → s ≠ 404 → s ≠ 429 →
      doRequestOutcome s updateHandleResp = some (.httpError s) ∧
      kkIsClientErr (.httpError s) = true) := by
  refine ⟨?_, ?_, ?_, ?_, ?_, ?_⟩
  · intro env w m i e him hq hpre hterm hflag
    obtain ⟨le2, heq⟩ := hnGo_run_prefix env w i m 0 none []
      (fun j hj1 hj2 => ⟨hq j (by omega), hpre j (by omega)⟩) (by omega)
    unfold hnGetItem
    rw [heq]
    obtain ⟨f, hf⟩ : ∃ f, m - i = f + 1 := ⟨m - i - 1, by omega⟩
    rw [hf]
    have hct := (hq i (le_refl _)).1
    simp [hnGo, hct, hterm, hflag]
  · intro env w m i e him hq hpre hterm hflag
    obtain ⟨le2, heq⟩ := kkGo_run_prefix env w i m 0 none []
      (fun j hj1 hj2 => ⟨hq j (by omega), hpre j (by omega)⟩) (by omega)
    unfold kkDoRequestWithRetries
    rw [heq]
    obtain ⟨f, hf⟩ : ∃ f, m - i = f + 1 := ⟨m - i - 1, by omega⟩
    rw [hf]
    have hct := (hq i (le_refl _)).1
    by_cases hc1 : (kkErrIs e .unauthorized || kkErrIs e .bookmarkNotFound) = true
    · simp [kkGo, hct, hterm, hc1]
    · rw [Bool.not_eq_true] at hc1
      have hc2 : kkIsClientErr e = true := by
        simpa [hc1] using hflag
      simp [kkGo, hct, hterm, hc1, hc2]
  · intro env w m i him hq hpre h429 hok
    have hrl : kkRetryable (env.request i) := by
      rw [h429]
      exact ⟨.rateLimited, rfl, rfl, rfl, rfl, rfl, rfl⟩
    obtain ⟨le2, heq⟩ := kkGo_run_prefix env w (i + 1) m 0 none []
      (fun j hj1 hj2 => ⟨hq j (by omega), by
        rcases Nat.lt_succ_iff_lt_or_eq.mp (by omega : j < i + 1) with hlt | hEq
        · exact hpre j hlt
        · rw [hEq]; exact hrl⟩) (by omega)
    unfold kkDoRequestWithRetries
    rw [heq]
    obtain ⟨f, hf⟩ : ∃ f, m - (i + 1) = f + 1 := ⟨m - (i + 1) - 1, by omega⟩
    rw [hf]
    have hct := (hq (i + 1) (le_refl _)).1
    simp [kkGo, hct, hok]
  · intro h
    exact ⟨rfl, rfl⟩
  · rfl
  · intro s h1 h2 h3 h4 h5
    constructor
    · unfold doRequestOutcome updateHandleResp
      rw [if_neg h3, if_neg h5, if_neg h4, if_pos (by omega : s ≠ 200)]
    · show isClientError s = true
      unfold isClientError
      simp only [Bool.and_eq_true, decide_eq_true_eq]
      omega

/-- Environment in which every attempt fails with a not-found sentinel and
no cancellation ever fires. -/
def notFoundEnv : HNEnv :=
  ⟨fun _ => .error .itemNotFound, fun _ => false, fun _ => false, fun _ => false⟩

/-- C7 witness: the read client returns the not-found sentinel on attempt 1
and makes no further attempt, with default retry settings (1s base wait,
3 attempts). -/
theorem clients_terminal_errors_immediate_witness :
    (hnGetItem notFoundEnv 1000000000 3).1 = .immediateErr .itemNotFound ∧
    (hnGetItem notFoundEnv 1000000000 3).2.1 = 0 + 1 :=
  clients_terminal_errors_immediate.1 notFoundEnv 1000000000 3 0 .itemNotFound
    (by norm_num) (fun j hj => ⟨rfl, rfl, rfl⟩)
    (fun j hj => absurd hj (Nat.not_lt_zero j)) rfl rfl

/-- Environment in which every attempt fails with a retryable transport
error and no cancellation ever fires. -/
def retryFailEnv : HNEnv :=
  ⟨fun _ => .error .requestFailed, fun _ => false, fun _ => false, fun _ => false⟩

set_option maxRecDepth 4000 in
/-- C8 counterexample: with a 1-second base delay, 65 attempts and every
attempt failing with a retryable error, the wait inserted before retry
attempt 65 (index 63) is 0 nanoseconds — `1s * (1 << 63)` overflows int64
to a multiple of `2^64`, i.e. 0 — while the claimed formula
`min(baseDelay * 2^63, 30s)` gives 30 seconds. -/
theorem backoff_overflow_counterexample :
    ((hnGetItem retryFailEnv 1000000000 65).2.2)[63]? = some 0 ∧
    some (0 : Int) ≠ some (min ((1000000000 : Int) * 2 ^ 63) 30000000000) :=
  ⟨by decide, by decide⟩

/-- C8 (amended): in both retry loops, as long as the first `n` attempts
fail with retryable errors and no cancellation fires, the delay inserted
before retry attempt `n+1` equals `min(baseDelay * 2^(n-1), 30s)` provided
`baseDelay * 2^(n-1)` does not overflow int64 (is below `2^63` ns); for
larger exponents the shifted product wraps around (see the counterexample).
Moreover a wait aborts immediately with a cancellation outcome, and no
further attempt, if the cancellation signal fires during it. -/
theorem clients_backoff_delay_formula :
    (∀ (env : HNEnv) (w : Int) (m n : Nat),
      0 < n → n ≤ m → 0 ≤ w → w * 2 ^ (n - 1) < 2 ^ 63 →
      (∀ j, j < n → hnQuiet env j ∧ hnRetryable (env.fetch j)) →
      ((hnGetItem env w m).2.2)[n - 1]? = some (min (w * 2 ^ (n - 1)) 30000000000)) ∧
    (∀ (env : KkEnv) (w : Int) (m n : Nat),
      0 < n → n ≤ m → 0 ≤ w → w * 2 ^ (n - 1) < 2 ^ 63 →
      (∀ j, j < n → kkQuiet env j ∧ kkRetryable (env.request j)) →
      ((kkDoRequestWithRetries env w m).2.2)[n - 1]? =
        some (min (w * 2 ^ (n - 1)) 30000000000)) ∧
    (∀ (env : HNEnv) (w : Int) (m n : Nat),
      n < m → (∀ j, j < n → hnQuiet env j ∧ hnRetryable (env.fetch j)) →
      hnRetryable (env.fetch n) →
      env.cancelTop n = false → env.cancelAfterFetch n = false →
      env.cancelDuringWait n = true →
      (hnGetItem env w m).1 = .cancelled ∧ (hnGetItem env w m).2.1 = n + 1) ∧
    (∀ (env : KkEnv) (w : Int) (m n : Nat),
      n < m → (∀ j, j < n → kkQuiet env j ∧ kkRetryable (env.request j)) →
      kkRetryable (env.request n) →
      env.cancelTop n = false → env.cancelDuringWait n = true →
      (kkDoRequestWithRetries env w m).1 = .cancelled ∧
      (kkDoRequestWithRetries env w m).2.1 = n + 1) := by
  refine ⟨?_, ?_, ?_, ?_⟩
  · intro env w m n hn hnm hw hov hpre
    obtain ⟨le2, heq⟩ := hnGo_run_prefix env w n m 0 none []
      (fun j hj1 hj2 => hpre j (by omega)) (by omega)
    unfold hnGetItem
    rw [heq]
    obtain ⟨tail, htail⟩ := hnGo_waits_extend env w (m - n) (0 + n) le2
      ([] ++ (List.range n).map (fun j => goBackoff w (0 + j)))
    rw [htail]
    simp only [List.nil_append]
    rw [List.getElem?_append_left (by simp; omega), List.getElem?_map,
      List.getElem?_range (by omega)]
    simp [goBackoff_eq_min hw hov]
  · intro env w m n hn hnm hw hov hpre
    obtain ⟨le2, heq⟩ := kkGo_run_prefix env w n m 0 none []
      (fun j hj1 hj2 => hpre j (by omega)) (by omega)
    unfold kkDoRequestWithRetries
    rw [heq]
    obtain ⟨tail, htail⟩ := kkGo_waits_extend env w (m - n) (0 + n) le2
      ([] ++ (List.range n).map (fun j => goBackoff w (0 + j)))
    rw [htail]
    simp only [List.nil_append]
    rw [List.getElem?_append_left (by simp; omega), List.getElem?_map,
      List.getElem?_range (by omega)]
    simp [goBackoff_eq_min hw hov]
  · intro env w m n hnm hpre hret hct hcaf hcdw
    obtain ⟨le2, heq⟩ := hnGo_run_prefix env w n m 0 none []
      (fun j hj1 hj2 => hpre j (by omega)) (by omega)
    unfold hnGetItem
    rw [heq]
    obtain ⟨f, hf⟩ : ∃ f, m - n = f + 1 := ⟨m - n - 1, by omega⟩
    rw [hf]
    obtain ⟨e, he, h1, h2, h3⟩ := hret
    simp [hnGo, hct, he, h1, h2, h3, hcaf, hcdw]
  · intro env w m n hnm hpre hret hct hcdw
    obtain ⟨le2, heq⟩ := kkGo_run_prefix env w n m 0 none []
      (fun j hj1 hj2 => hpre j (by omega)) (by omega)
    unfold kkDoRequestWithRetries
    rw [heq]
    obtain ⟨f, hf⟩ : ∃ f, m - n = f + 1 := ⟨m - n - 1, by omega⟩
    rw [hf]
    obtain ⟨e, he, h1, h2, h3, h4, h5⟩ := hret
    simp [kkGo, hct, he, h1, h2, h3, h4, h5, hcdw]

/-- C8 witness: the amended delay-formula theorem applied at the retryable
failure environment with 1s base delay, 3 attempts, and n = 2: the wait
before attempt 3 is `min(1s * 2, 30s) = 2s`. -/
theorem clients_backoff_delay_formula_witness :
    ((hnGetItem retryFailEnv 1000000000 3).2.2)[2 - 1]? =
      some (min ((1000000000 : Int) * 2 ^ (2 - 1)) 30000000000) :=
  clients_backoff_delay_formula.1 retryFailEnv 1000000000 3 2 (by norm_num) (by norm_num)
    (by norm_num) (by norm_num)
    (fun j hj => ⟨⟨rfl, rfl, rfl⟩, ⟨.requestFailed, rfl, rfl, rfl, rfl⟩⟩)
